import Mathlib

/-!
Verification development for the command-text interpreter and pipeline
executor of `rust_cmd_lib` (`src/lib.rs`).

The pure text-processing functions (`parse_args`, `parse_seps`,
`parse_cmds`, `parse_pipes`, `parse_argv`, `resolve_name`) are embedded
directly, character by character, over `List Char` with `String`
wrappers.  The process-spawning layer (`Pipe::new`, `Pipe::pipe`,
`Pipe::wait_fun_result`, `run_pipe_fun`, `run_cmd`) is embedded over an
abstract process environment `Env` that maps a spawned argument vector
to `none` (the spawn fails) or `some (code, stdout)` where `code` is the
process exit status: `some n` for exit with code `n`, `none` for
termination without an exit code (signal).  A status is successful
exactly when it is `some 0`, matching `ExitStatus::success` on Unix.
Rust panics (out-of-bounds indexing) are modelled as the distinguished
outcomes `RRes.panicOOB` / `RRun.panicked`, separate from error returns.
Every run function also returns the list of argument vectors it
attempted to spawn, in order, so that "stage was / was not executed"
claims are statable.
-/

/-- Rust `char::is_whitespace`: the Unicode White_Space property,
used by `parse_args` for token boundaries and by `str::trim`. -/
def rustIsWhitespace (c : Char) : Bool :=
  let n := c.toNat
  n == 0x09 || n == 0x0A || n == 0x0B || n == 0x0C || n == 0x0D || n == 0x20 ||
  n == 0x85 || n == 0xA0 || n == 0x1680 ||
  (decide (0x2000 ≤ n) && decide (n ≤ 0x200A)) ||
  n == 0x2028 || n == 0x2029 || n == 0x202F || n == 0x205F || n == 0x3000

/-- The three characters skipped by the leading-declaration loop of
`resolve_name` (`' '`, `'\t'`, `'\n'`). -/
def isDeclWs (c : Char) : Bool :=
  c == ' ' || c == '\t' || c == '\n'

/-- The shared quote-state update: a `'"'` toggles the double-quote flag
only outside single quotes, a `'\''` toggles the single-quote flag only
outside double quotes.  Returns `(single, double)`. -/
def toggleQ (sq dq : Bool) (c : Char) : Bool × Bool :=
  if c == '"' && !sq then (sq, !dq)
  else if c == '\'' && !dq then (!sq, dq)
  else (sq, dq)

/-- Character scan of `parse_args`: quote characters and unquoted
whitespace become the boundary marker `'\n'`; quote characters toggle
their flag and are dropped from the output. -/
def parseArgsAux (sq dq : Bool) : List Char → List Char
  | [] => []
  | c :: rest =>
    if c == '"' && !sq then '\n' :: parseArgsAux sq (!dq) rest
    else if c == '\'' && !dq then '\n' :: parseArgsAux (!sq) dq rest
    else if !sq && !dq && rustIsWhitespace c then '\n' :: parseArgsAux sq dq rest
    else c :: parseArgsAux sq dq rest

/-- `parse_args` from the source: map the command text to a
`'\n'`-separated token string. -/
def parse_args (s : String) : String :=
  ⟨parseArgsAux false false s.data⟩

/-- Character scan of `parse_seps`: only the separator outside both
quote states becomes a boundary; quote characters toggle state but are
retained. -/
def parseSepsAux (sep : Char) (sq dq : Bool) : List Char → List Char
  | [] => []
  | c :: rest =>
    let p := toggleQ sq dq c
    (if c == sep && !p.1 && !p.2 then '\n' else c) :: parseSepsAux sep p.1 p.2 rest

/-- `parse_seps` from the source. -/
def parse_seps (s : String) (sep : Char) : String :=
  ⟨parseSepsAux sep false false s.data⟩

/-- `parse_cmds` from the source: split markers at unquoted `';'`. -/
def parse_cmds (s : String) : String :=
  parse_seps s ';'

/-- `parse_pipes` from the source: split markers at unquoted `'|'`. -/
def parse_pipes (s : String) : String :=
  parse_seps s '|'

/-- Rust `str::split("\n")`: split into (possibly empty) pieces at every
`'\n'`. -/
def splitNL : List Char → List (List Char)
  | [] => [[]]
  | c :: rest =>
    if c == '\n' then [] :: splitNL rest
    else
      match splitNL rest with
      | [] => [[c]]
      | g :: gs => (c :: g) :: gs

/-- `parse_argv` from the source: split on `'\n'` and keep the pieces
that are not empty after trimming (that is, not whitespace-only). -/
def parse_argv (s : String) : List String :=
  ((splitNL s.data).filter (fun g => !(g.all rustIsWhitespace))).map (fun g => ⟨g⟩)

/-- The tokenizer of the specification: `parse_args` then `parse_argv`,
exactly the combination used by `Pipe::new` and `Pipe::pipe`. -/
def tokenize (s : String) : List String :=
  parse_argv (parse_args s)

/-- The separator splitter of the specification: `parse_seps` then
`parse_argv`, the combination used by `run_cmd` (with `';'`) and
`run_pipe_fun` (with `'|'`). -/
def split_segments (s : String) (sep : Char) : List String :=
  parse_argv (parse_seps s sep)

/-- Rust `str::trim`: remove leading and trailing Unicode whitespace. -/
def rustTrim (s : String) : String :=
  ⟨((s.data.dropWhile rustIsWhitespace).reverse.dropWhile rustIsWhitespace).reverse⟩

/-- Outcome of `resolve_name`.  The source terminates the process via
`die!` on an unterminated reference (`invalidName`) or a missing symbol
(`resolveFailed`); both fatal exits are modelled as outcomes, and an
out-of-bounds `Vec` index is modelled as `panicOOB`. -/
inductive RRes where
  | ok (out : String)
  | invalidName (var : String)
  | resolveFailed (var : String)
  | panicOOB
  deriving DecidableEq

/-- The leading-whitespace skip of `resolve_name` (`while input[i] == ' '
|| input[i] == '\t' || input[i] == '\n'`): `none` when the loop runs past
the end of the input (an out-of-bounds index). -/
def skipWsChars : List Char → Option (List Char)
  | [] => none
  | c :: rest => if isDeclWs c then skipWsChars rest else some (c :: rest)

/-- The `use`-declaration skip of `resolve_name` (`while input[i] != ';'`):
`none` when no `';'` occurs (an out-of-bounds index); the `';'` itself is
kept, since the main scan resumes on it. -/
def skipToSemi : List Char → Option (List Char)
  | [] => none
  | c :: rest => if c == ';' then some (c :: rest) else skipToSemi rest

/-- State of the `resolve_name` main scan: `norm` outside a reference,
`openRef` just after the `'$'` of a recognized `"$\x7b"` marker (the next
character is its `'\x7b'`), `ref` inside a reference accumulating the
name.  The quote flags are frozen while inside a reference, as in the
source, where the reference is consumed by an inner loop. -/
inductive Mode where
  | norm (sq dq : Bool)
  | openRef (sq dq : Bool)
  | ref (sq dq : Bool) (var : List Char)

/-- The reference-marker guard of `resolve_name` as seen from the text
following the `'$'`: the next character is `'\x7b'` and at least two
characters follow the `'$'` (the source guard `i < len-2` together with
`input[i+1] == '\x7b'`). -/
def refStart (rest : List Char) : Bool :=
  rest.head? == some '{' && decide (2 ≤ rest.length)

/-- The main scan of `resolve_name`.  A reference marker is recognized
only under `refStart`; the looked-up value is spliced raw when the
double-quote flag is set and wrapped in double quotes otherwise; a
`';'`, `'\n'` or end-of-input before the closing `'\x7d'` is fatal. -/
def scan (st : String → Option String) : Mode → List Char → List Char → RRes
  | .norm _ _, out, [] => .ok ⟨out⟩
  | .openRef _ _, _, [] => .panicOOB
  | .ref _ _ _, _, [] => .panicOOB
  | .norm sq dq, out, c :: rest =>
    let p := toggleQ sq dq c
    if !p.1 && c == '$' && refStart rest then
      scan st (.openRef p.1 p.2) out rest
    else
      scan st (.norm p.1 p.2) (out ++ [c]) rest
  | .openRef sq dq, out, _ :: rest => scan st (.ref sq dq []) out rest
  | .ref sq dq var, out, c :: rest =>
    if c == '}' then
      match st ⟨var⟩ with
      | none => .resolveFailed ⟨var⟩
      | some v =>
        scan st (.norm sq dq) (out ++ (if dq then v.data else '"' :: (v.data ++ ['"']))) rest
    else if c == ';' || c == '\n' || rest.isEmpty then .invalidName ⟨var ++ [c]⟩
    else scan st (.ref sq dq (var ++ [c])) out rest

/-- The rest of the `i == 0` block of `resolve_name`, after the
leading-whitespace skip (the skipped whitespace is dropped from the
output): slice four characters (panicking when fewer remain) to test
for a `use` declaration, skip a declaration to its `';'`, then run the
main scan. -/
def resolveAfterWs (st : String → Option String) (rem : List Char) : RRes :=
  if rem.length < 4 then .panicOOB
  else
    if (decide (4 < rem.length) && rem.take 4 == "use ".data) ||
        rem.take 4 == "use\t".data then
      (skipToSemi rem).elim .panicOOB (fun rem2 => scan st (.norm false false) [] rem2)
    else scan st (.norm false false) [] rem

/-- `resolve_name` on the character list: empty input never enters the
loop; otherwise the `i == 0` block runs, then the main scan. -/
def resolveChars (st : String → Option String) : List Char → RRes
  | [] => .ok ""
  | c :: rest =>
    (skipWsChars (c :: rest)).elim .panicOOB (resolveAfterWs st)

/-- `resolve_name` from the source, over a symbol table abstracted as a
lookup function (`HashMap::get`).  The `file`/`line` arguments of the
source only feed the fatal diagnostics and are omitted. -/
def resolve_name (src : String) (st : String → Option String) : RRes :=
  resolveChars st src.data

/-- The predicate "the text contains no `'$'` immediately followed by
`'\x7b'` outside a single-quoted span", tracked with the same quote
discipline as the scan. -/
def noRefB (sq dq : Bool) : List Char → Bool
  | [] => true
  | c :: rest =>
    let p := toggleQ sq dq c
    !(!p.1 && c == '$' && rest.head? == some '{') && noRefB p.1 p.2 rest

/-- A process exit status as observed through `ExitStatus::code()`:
`some n` for exit code `n`, `none` when no code is available (signal
termination).  `ExitStatus::success` holds exactly for `some 0`. -/
abbrev ExitCode := Option Int

/-- `ExitStatus::success()`. -/
def statusSuccess (st : ExitCode) : Bool :=
  st == some 0

/-- An `std::io::Error` as distinguished by this library: a spawn
failure (carrying the argument vector that failed to launch) or an
`ErrorKind::Other` error with a message (`to_io_error`). -/
inductive IoErr where
  | spawnFailed (argv : List String)
  | other (msg : String)
  deriving DecidableEq

/-- `to_io_error` from the source: with an exit code, the message is
`"\x7bcommand\x7d exit with \x7bcode\x7d"`; without one it is the fixed
string `"Unknown error"` (the command label is not included). -/
def to_io_error (command : String) (status : ExitCode) : IoErr :=
  match status with
  | some code => .other (command ++ " exit with " ++ toString code)
  | none => .other "Unknown error"

/-- The ambient process-spawning facility: what a spawned argument
vector does.  `none`: the spawn itself fails; `some (code, out)`: the
process runs, eventually exits with status `code`, and writes `out` to
its stdout. -/
abbrev Env := List String → Option (ExitCode × String)

/-- The `Pipe` value: the behaviour of the live last stage and the
human-readable joined label. -/
structure PipeM where
  last_proc : ExitCode × String
  full_cmd : String
  deriving DecidableEq

/-- Outcome of a run operation: a value, an `std::io::Error`, or a Rust
panic (out-of-bounds index). -/
inductive RRun (α : Type) where
  | ok (a : α)
  | err (e : IoErr)
  | panicked
  deriving DecidableEq

/-- `Pipe::wait_fun_result`: block on the last stage; on non-success
report `to_io_error` of the joined label and the status, otherwise yield
the captured stdout.  (The `info!` trace line is a side effect outside
the model.) -/
def wait_fun_result (p : PipeM) : RRun String :=
  if statusSuccess p.last_proc.1 then .ok p.last_proc.2
  else .err (to_io_error p.full_cmd p.last_proc.1)

/-- `Pipe::new`: tokenize the stage, panic on an empty argument vector
(`argv[0]`), otherwise spawn.  Also returns the argument vectors whose
spawn was attempted. -/
def pipeNew (env : Env) (pipe_cmd : String) : RRun PipeM × List (List String) :=
  let argv := tokenize pipe_cmd
  if argv = [] then (.panicked, [])
  else
    match env argv with
    | none => (.err (.spawnFailed argv), [argv])
    | some r => (.ok ⟨r, pipe_cmd⟩, [argv])

/-- `Pipe::pipe`: tokenize and spawn the next stage wired to the
previous stage's stdout; the previous stage is awaited but its exit
status is discarded (the source never inspects it); the label is
extended with `" | "`. -/
def pipePipe (env : Env) (p : PipeM) (pipe_cmd : String) : RRun PipeM × List (List String) :=
  let argv := tokenize pipe_cmd
  if argv = [] then (.panicked, [])
  else
    match env argv with
    | none => (.err (.spawnFailed argv), [argv])
    | some r => (.ok ⟨r, p.full_cmd ++ " | " ++ pipe_cmd⟩, [argv])

/-- The extension loop of `run_pipe_fun` (`for i != 0 { pipe }`). -/
def pipeGo (env : Env) (p : PipeM) : List String → RRun PipeM × List (List String)
  | [] => (.ok p, [])
  | cmd :: rest =>
    match pipePipe env p cmd with
    | (.ok p2, t) =>
      let q := pipeGo env p2 rest
      (q.1, t ++ q.2)
    | (.err e, t) => (.err e, t)
    | (.panicked, t) => (.panicked, t)

/-- `run_pipe_fun` after stage splitting: `pipe_argv[0]` panics on an
empty stage list, otherwise build the pipe, extend it per stage, and
finalize. -/
def runStages (env : Env) : List String → RRun String × List (List String)
  | [] => (.panicked, [])
  | first :: rest =>
    match pipeNew env first with
    | (.ok p, t) =>
      match pipeGo env p rest with
      | (.ok p2, t2) => (wait_fun_result p2, t ++ t2)
      | (.err e, t2) => (.err e, t ++ t2)
      | (.panicked, t2) => (.panicked, t ++ t2)
    | (.err e, t) => (.err e, t)
    | (.panicked, t) => (.panicked, t)

/-- `run_pipe_fun` from the source: trim, split on unquoted `'|'`, run
the stages. -/
def run_pipe_fun (env : Env) (full_command : String) : RRun String × List (List String) :=
  runStages env (parse_argv (parse_pipes (rustTrim full_command)))

/-- `run_fun` from the source (the function behind `run_fun!`). -/
def run_fun (env : Env) (cmds : String) : RRun String × List (List String) :=
  run_pipe_fun env cmds

/-- `run_pipe_cmd`: `run_pipe_fun` with the captured output printed and
discarded (`result_fun_to_cmd`). -/
def run_pipe_cmd (env : Env) (full_command : String) : RRun Unit × List (List String) :=
  match run_pipe_fun env full_command with
  | (.ok _, t) => (.ok (), t)
  | (.err e, t) => (.err e, t)
  | (.panicked, t) => (.panicked, t)

/-- The segment loop of `run_cmd`: run each segment in order, returning
the first error unchanged. -/
def run_cmd_go (env : Env) : List String → RRun Unit × List (List String)
  | [] => (.ok (), [])
  | cmd :: rest =>
    match run_pipe_cmd env cmd with
    | (.ok _, t) =>
      let q := run_cmd_go env rest
      (q.1, t ++ q.2)
    | (.err e, t) => (.err e, t)
    | (.panicked, t) => (.panicked, t)

/-- The source function behind the sequence runner (named `run_cmd` there, a reserved word here): split on unquoted `';'` and run the
segments in order. -/
def runCmd (env : Env) (cmds : String) : RRun Unit × List (List String) :=
  run_cmd_go env (parse_argv (parse_cmds cmds))

/-- Concrete environment for the `"true | false"` pipeline: `true`
exits 0, `false` exits 1. -/
def envTF : Env := fun argv =>
  if argv = ["true"] then some (some 0, "")
  else if argv = ["false"] then some (some 1, "")
  else none

/-- Concrete environment for the sequence short-circuit scenario. -/
def envFE : Env := fun argv =>
  if argv = ["false"] then some (some 1, "")
  else if argv = ["echo", "should-not-run"] then some (some 0, "should-not-run\n")
  else none

/-- Concrete environment with a single command exiting with code 7. -/
def envC7 : Env := fun argv =>
  if argv = ["cmd7"] then some (some 7, "")
  else none

/-- Concrete symbol table `\x7b"name": "world"\x7d`. -/
def stName : String → Option String := fun n =>
  if n = "name" then some "world" else none

/-- Concrete symbol table `\x7b"f": "a b"\x7d`. -/
def stF : String → Option String := fun n =>
  if n = "f" then some "a b" else none

/-- The empty symbol table. -/
def stEmpty : String → Option String := fun _ => none

theorem skipWsChars_eq (l : List Char) :
    skipWsChars l =
      if l.dropWhile isDeclWs = [] then none else some (l.dropWhile isDeclWs) := by
  induction l with
  | nil => simp [skipWsChars]
  | cons c t ih =>
    by_cases h : isDeclWs c
    · simp [skipWsChars, List.dropWhile_cons, h, ih]
    · simp [skipWsChars, List.dropWhile_cons, h]

/-- C5.  Tokenizer correctness: the quote-aware tokenizer splits on
unquoted whitespace and quote characters, strips quotes, and drops
empty or whitespace-only pieces, as shown by the specification's
examples; a quoted empty string yields no token. -/
theorem claim_C5 :
    tokenize "a b c" = ["a", "b", "c"] ∧
    tokenize "a \"b c\" d" = ["a", "b c", "d"] ∧
    tokenize "a 'x y' z" = ["a", "x y", "z"] ∧
    tokenize "   " = [] ∧
    tokenize "\"\"" = [] := by
  decide

/-- C6.  Separator splitter correctness: only the separator outside both
quote states becomes a boundary, quote characters are retained in the
segments, and whitespace-only segments are dropped, as shown by the
specification's examples. -/
theorem claim_C6 :
    split_segments "a;b;c" ';' = ["a", "b", "c"] ∧
    split_segments "a;\"b;c\"" ';' = ["a", "\"b;c\""] := by
  decide

/-- C9.  `resolve_name` slices four characters right after the leading
run of `' '`/`'\t'`/`'\n'` characters, so every non-empty template with
fewer than four characters after that run (including every template
consisting only of such whitespace) makes it panic with an
out-of-bounds index instead of returning a result or an error. -/
theorem claim_C9 (src : String) (st : String → Option String)
    (hne : src.data ≠ []) (hlen : (src.data.dropWhile isDeclWs).length < 4) :
    resolve_name src st = RRes.panicOOB := by
  unfold resolve_name
  cases hd : src.data with
  | nil => exact absurd hd hne
  | cons c t =>
    rw [hd] at hlen
    simp only [resolveChars]
    rw [skipWsChars_eq]
    by_cases h0 : (c :: t).dropWhile isDeclWs = []
    · simp [h0]
    · simp [h0, resolveAfterWs, hlen]

/-- Witness for C9 at the template `"ls"`. -/
theorem claim_C9_witness : resolve_name "ls" stEmpty = RRes.panicOOB :=
  claim_C9 "ls" stEmpty (by decide) (by decide)

/-- Counterexample to C4 as stated: the template `"ab$\x7b"` has a `$\x7b`
that is never closed before end-of-input, yet `resolve_name` recognizes
a reference only when at least two characters follow the `'$'`, so the
text is copied through and the call succeeds instead of failing with a
malformed-reference error. -/
theorem claim_C4_counterexample : resolve_name "ab$\x7b" stEmpty = RRes.ok "ab$\x7b" := by
  decide

/-- Counterexample to C10 as stated: a template with leading whitespace
and no reference marker is not returned unchanged — the leading
whitespace is dropped from the output. -/
theorem claim_C10_counterexample :
    resolve_name " echo hi" stEmpty = RRes.ok "echo hi" ∧
    (" echo hi" : String) ≠ "echo hi" := by
  decide

/-- Counterexample to C7 as stated: when no exit code is available the
error message is the fixed string `"Unknown error"`; the pipeline label
does not occur in it. -/
theorem claim_C7_counterexample :
    to_io_error "true | false" none = IoErr.other "Unknown error" ∧
    ¬ ("true | false".data <:+: "Unknown error".data) := by
  decide

theorem refStart_shape (rest : List Char) (h : refStart rest = true) :
    ∃ d ts, rest = '{' :: d :: ts := by
  cases rest with
  | nil => simp [refStart] at h
  | cons a as =>
    cases as with
    | nil => simp [refStart] at h
    | cons b bs =>
      simp only [refStart, List.head?, Bool.and_eq_true, beq_iff_eq, Option.some.injEq] at h
      exact ⟨b, bs, by rw [h.1]⟩

theorem guard_false_of_noRef (p1 : Bool) (c : Char) (rest : List Char)
    (h : (p1 && c == '$' && rest.head? == some '{') = false) :
    (p1 && c == '$' && refStart rest) = false := by
  cases hp : (p1 && (c == '$')) with
  | false => simp [hp]
  | true =>
    rw [hp] at h
    simp only [Bool.true_and] at h
    simp [refStart, h]

theorem scan_noRef (st : String → Option String) :
    ∀ (l : List Char) (sq dq : Bool) (out : List Char),
      noRefB sq dq l = true → scan st (.norm sq dq) out l = RRes.ok ⟨out ++ l⟩ := by
  intro l
  induction l with
  | nil => intro sq dq out _; simp [scan]
  | cons c rest ih =>
    intro sq dq out h
    simp only [noRefB, Bool.and_eq_true, Bool.not_eq_true'] at h
    obtain ⟨h1, h2⟩ := h
    simp only [scan]
    rw [if_neg (by simp [guard_false_of_noRef _ _ _ h1])]
    rw [ih _ _ _ h2]
    simp

theorem scan_no_panic (st : String → Option String) :
    ∀ (n : Nat) (l : List Char), l.length ≤ n →
      (∀ sq dq out, scan st (.norm sq dq) out l ≠ RRes.panicOOB) ∧
      (l ≠ [] → ∀ sq dq var out, scan st (.ref sq dq var) out l ≠ RRes.panicOOB) := by
  intro n
  induction n with
  | zero =>
    intro l hl
    have h0 : l = [] := List.length_eq_zero.mp (Nat.le_zero.mp hl)
    subst h0
    exact ⟨fun sq dq out => by simp [scan], fun h => absurd rfl h⟩
  | succ n ih =>
    intro l hl
    cases l with
    | nil => exact ⟨fun sq dq out => by simp [scan], fun h => absurd rfl h⟩
    | cons c rest =>
      have hrest : rest.length ≤ n := by
        simp only [List.length_cons] at hl
        omega
      constructor
      · intro sq dq out
        simp only [scan]
        by_cases hg : (!(toggleQ sq dq c).1 && c == '$' && refStart rest) = true
        · rw [if_pos hg]
          have hrs : refStart rest = true := by
            simp only [Bool.and_eq_true] at hg
            exact hg.2
          obtain ⟨d, ts, rfl⟩ := refStart_shape rest hrs
          simp only [scan]
          refine (ih (d :: ts) ?_).2 (by simp) _ _ _ _
          simp only [List.length_cons] at hl ⊢
          omega
        · rw [if_neg hg]
          exact (ih rest hrest).1 _ _ _
      · intro _ sq dq var out
        simp only [scan]
        by_cases hc : (c == '}') = true
        · rw [if_pos hc]
          cases hst : st ⟨var⟩ with
          | none => simp
          | some v => exact (ih rest hrest).1 _ _ _
        · rw [if_neg hc]
          by_cases h2 : (c == ';' || c == '\n' || rest.isEmpty) = true
          · rw [if_pos h2]
            simp
          · rw [if_neg h2]
            have hrne : rest ≠ [] := by
              intro h0
              subst h0
              simp at h2
            exact (ih rest hrest).2 hrne _ _ _ _

/-- C3.  Resolver asymmetric quoting: a reference resolved while the
double-quote flag is set splices the looked-up value raw, and a
reference outside any quoting splices it wrapped in double quotes,
shown on the specification's two template families for an arbitrary
symbol table and an arbitrary value. -/
theorem claim_C3 (st1 st2 : String → Option String) (v w : String)
    (h1 : st1 "name" = some v) (h2 : st2 "f" = some w) :
    resolve_name "echo \"hello $\x7bname\x7d\"" st1 = RRes.ok ("echo \"hello " ++ v ++ "\"") ∧
    resolve_name "ls $\x7bf\x7d" st2 = RRes.ok ("ls \"" ++ w ++ "\"") := by
  constructor
  · have e : resolve_name "echo \"hello $\x7bname\x7d\"" st1 =
        (match st1 "name" with
         | none => RRes.resolveFailed "name"
         | some u => RRes.ok ("echo \"hello " ++ u ++ "\"")) := rfl
    rw [e, h1]
  · have e : resolve_name "ls $\x7bf\x7d" st2 =
        (match st2 "f" with
         | none => RRes.resolveFailed "f"
         | some u => RRes.ok ("ls \"" ++ u ++ "\"")) := rfl
    rw [e, h2]

/-- Witness for C3 at the specification's concrete symbol tables:
`resolve_template("echo \"hello $\x7bname\x7d\"")` with `name = world` gives
`echo "hello world"`, and `ls $\x7bf\x7d` with `f = "a b"` gives
`ls "a b"`. -/
theorem claim_C3_witness :
    resolve_name "echo \"hello $\x7bname\x7d\"" stName = RRes.ok "echo \"hello world\"" ∧
    resolve_name "ls $\x7bf\x7d" stF = RRes.ok "ls \"a b\"" := by
  have h := claim_C3 stName stF "world" "a b" (by decide) (by decide)
  exact ⟨h.1.trans (by decide), h.2.trans (by decide)⟩

/-- C4 (amended).  Resolver failure conditions: a recognized reference
whose name is missing from the table fails as an undefined variable; a
recognized reference not closed before end-of-input, a `';'`, or a
newline fails as a malformed reference; but a `$\x7b` occurring as the
final two characters of the template is not recognized as a reference
and is copied through literally, and templates with at least four
characters after the leading whitespace that do not start a `use`
declaration never panic, so resolution otherwise returns the
substituted string. -/
theorem claim_C4 :
    (∀ st : String → Option String, st "x" = none →
        resolve_name "ls $\x7bx\x7d" st = RRes.resolveFailed "x") ∧
    (∀ st : String → Option String, resolve_name "ls $\x7bx" st = RRes.invalidName "x") ∧
    (∀ st : String → Option String, resolve_name "ls $\x7bx;\x7d" st = RRes.invalidName "x;") ∧
    (∀ st : String → Option String, resolve_name "ls $\x7bx\n\x7d" st = RRes.invalidName "x\n") ∧
    (∀ st : String → Option String, resolve_name "ab$\x7b" st = RRes.ok "ab$\x7b") ∧
    (∀ (src : String) (st : String → Option String),
        4 ≤ (src.data.dropWhile isDeclWs).length →
        (src.data.dropWhile isDeclWs).take 4 ≠ "use ".data →
        (src.data.dropWhile isDeclWs).take 4 ≠ "use\t".data →
        resolve_name src st ≠ RRes.panicOOB) := by
  refine ⟨?_, fun st => rfl, fun st => rfl, fun st => rfl, fun st => rfl, ?_⟩
  · intro st h
    have e : resolve_name "ls $\x7bx\x7d" st =
        (match st "x" with
         | none => RRes.resolveFailed "x"
         | some u => RRes.ok ("ls \"" ++ u ++ "\"")) := rfl
    rw [e, h]
  · intro src st hlen hu1 hu2
    unfold resolve_name
    cases hd : src.data with
    | nil => rw [hd] at hlen; simp at hlen
    | cons c t =>
      rw [hd] at hlen hu1 hu2
      simp only [resolveChars]
      rw [skipWsChars_eq]
      have hne0 : (c :: t).dropWhile isDeclWs ≠ [] := by
        intro h0; rw [h0] at hlen; simp at hlen
      rw [if_neg hne0]
      simp only [Option.elim]
      unfold resolveAfterWs
      rw [if_neg (by omega)]
      have hc1 : (((c :: t).dropWhile isDeclWs).take 4 == "use ".data) = false :=
        beq_eq_false_iff_ne.mpr hu1
      have hc2 : (((c :: t).dropWhile isDeclWs).take 4 == "use\t".data) = false :=
        beq_eq_false_iff_ne.mpr hu2
      rw [if_neg (by simp [hc1, hc2])]
      exact (scan_no_panic st ((c :: t).dropWhile isDeclWs).length _ le_rfl).1 false false []

/-- Witness for C4 at the empty symbol table: `ls $\x7bx\x7d` fails as an
undefined variable. -/
theorem claim_C4_witness : resolve_name "ls $\x7bx\x7d" stEmpty = RRes.resolveFailed "x" :=
  claim_C4.1 stEmpty (by decide)

/-- C10 (amended).  Resolver identity: a template with at least four
characters after its leading whitespace, not beginning a `use`
declaration, and containing no `'$'` immediately followed by `'\x7b'`
outside a single-quoted span, resolves — for every symbol table — to
the template with its leading `' '`/`'\t'`/`'\n'` characters removed
(so a template without leading whitespace is returned unchanged). -/
theorem claim_C10 (src : String) (st : String → Option String)
    (hlen : 4 ≤ (src.data.dropWhile isDeclWs).length)
    (hu1 : (src.data.dropWhile isDeclWs).take 4 ≠ "use ".data)
    (hu2 : (src.data.dropWhile isDeclWs).take 4 ≠ "use\t".data)
    (hnr : noRefB false false (src.data.dropWhile isDeclWs) = true) :
    resolve_name src st = RRes.ok ⟨src.data.dropWhile isDeclWs⟩ := by
  unfold resolve_name
  cases hd : src.data with
  | nil => rw [hd] at hlen; simp at hlen
  | cons c t =>
    rw [hd] at hlen hu1 hu2 hnr
    simp only [resolveChars]
    rw [skipWsChars_eq]
    have hne0 : (c :: t).dropWhile isDeclWs ≠ [] := by
      intro h0; rw [h0] at hlen; simp at hlen
    rw [if_neg hne0]
    simp only [Option.elim]
    unfold resolveAfterWs
    rw [if_neg (by omega)]
    have hc1 : (((c :: t).dropWhile isDeclWs).take 4 == "use ".data) = false :=
      beq_eq_false_iff_ne.mpr hu1
    have hc2 : (((c :: t).dropWhile isDeclWs).take 4 == "use\t".data) = false :=
      beq_eq_false_iff_ne.mpr hu2
    rw [if_neg (by simp [hc1, hc2])]
    simpa using scan_noRef st _ false false [] hnr

/-- Witness for C10 at the reference-free template `"echo hi"` and the
empty symbol table. -/
theorem claim_C10_witness : resolve_name "echo hi" stEmpty = RRes.ok "echo hi" := by
  have h := claim_C10 "echo hi" stEmpty (by decide) (by decide) (by decide) (by decide)
  exact h.trans (by decide)

theorem ws_ne_quotes (c : Char) (h : rustIsWhitespace c = true) :
    (c == '"') = false ∧ (c == '\'') = false := by
  refine ⟨beq_eq_false_iff_ne.mpr ?_, beq_eq_false_iff_ne.mpr ?_⟩ <;>
    rintro rfl <;> exact absurd h (by decide)

theorem parseArgsAux_ws (l : List Char) (h : ∀ c ∈ l, rustIsWhitespace c = true) :
    parseArgsAux false false l = l.map (fun _ => '\n') := by
  induction l with
  | nil => simp [parseArgsAux]
  | cons c t ih =>
    have hc := h c (List.mem_cons_self c t)
    have hq := ws_ne_quotes c hc
    simp [parseArgsAux, hq.1, hq.2, hc, ih (fun x hx => h x (List.mem_cons_of_mem c hx))]

theorem splitNL_replicate (n : Nat) :
    splitNL (List.replicate n '\n') = List.replicate (n + 1) [] := by
  induction n with
  | zero => simp [splitNL]
  | succ n ih => simp [splitNL, List.replicate_succ, ih, List.replicate_succ]

theorem tokenize_ws (s : String) (h : s.data.all rustIsWhitespace = true) :
    tokenize s = [] := by
  have h' : ∀ c ∈ s.data, rustIsWhitespace c = true := by
    simpa [List.all_eq_true] using h
  unfold tokenize parse_argv parse_args
  show ((splitNL (parseArgsAux false false s.data)).filter _).map _ = []
  rw [parseArgsAux_ws s.data h']
  rw [show s.data.map (fun _ => '\n') = List.replicate s.data.length '\n' from by simp]
  rw [splitNL_replicate]
  rw [List.filter_eq_nil_iff.mpr ?_]
  · simp
  · intro g hg
    rw [List.eq_of_mem_replicate hg]
    simp

theorem rustTrim_ws (s : String) (h : s.data.all rustIsWhitespace = true) :
    rustTrim s = "" := by
  have h' : ∀ c ∈ s.data, rustIsWhitespace c = true := by
    simpa [List.all_eq_true] using h
  unfold rustTrim
  rw [List.dropWhile_eq_nil_iff.mpr h']
  rfl

/-- C8.  For empty or whitespace-only command text, `run_fun` does not
return a spawn error or any other error: the stage list (and the
argument vector of `Pipe::new`) is empty, so indexing element 0 panics
instead of producing a `Result`; the precondition that the text
tokenizes to at least one token is required. -/
theorem claim_C8 (env : Env) (s : String) (h : s.data.all rustIsWhitespace = true) :
    (run_fun env s).1 = RRun.panicked ∧ (pipeNew env s).1 = RRun.panicked := by
  constructor
  · unfold run_fun run_pipe_fun
    rw [rustTrim_ws s h]
    rfl
  · simp [pipeNew, tokenize_ws s h]

theorem pipeGo_spec (env : Env) :
    ∀ (rest : List String) (p : PipeM),
      (∀ t ∈ rest, tokenize t ≠ [] ∧ (env (tokenize t)).isSome = true) →
      pipeGo env p rest =
        (RRun.ok ⟨rest.foldl (fun acc c => (env (tokenize c)).getD acc) p.last_proc,
                  rest.foldl (fun a c => a ++ " | " ++ c) p.full_cmd⟩,
         rest.map tokenize) := by
  intro rest
  induction rest with
  | nil => intro p _; rfl
  | cons cmd rest ih =>
    intro p h
    obtain ⟨hne, hsome⟩ := h cmd (List.mem_cons_self cmd rest)
    obtain ⟨r, hr⟩ := Option.isSome_iff_exists.mp hsome
    have hp : pipePipe env p cmd = (RRun.ok ⟨r, p.full_cmd ++ " | " ++ cmd⟩, [tokenize cmd]) := by
      simp [pipePipe, hne, hr]
    simp only [pipeGo, hp]
    rw [ih _ (fun t ht => h t (List.mem_cons_of_mem cmd ht))]
    simp [List.foldl_cons, hr]

theorem foldl_getD_last (env : Env) :
    ∀ (rest : List String) (d : String) (acc0 rLast : ExitCode × String),
      (∀ t ∈ rest, (env (tokenize t)).isSome = true) →
      env (tokenize (rest.getLastD d)) = some rLast →
      env (tokenize d) = some acc0 →
      rest.foldl (fun acc c => (env (tokenize c)).getD acc) acc0 = rLast := by
  intro rest
  induction rest with
  | nil =>
    intro d acc0 rLast _ hlast hd
    simp only [List.getLastD] at hlast
    rw [hd] at hlast
    simpa using hlast
  | cons c rest ih =>
    intro d acc0 rLast hall hlast hd
    obtain ⟨rc, hrc⟩ := Option.isSome_iff_exists.mp (hall c (List.mem_cons_self c rest))
    simp only [List.foldl_cons]
    rw [hrc, Option.getD_some]
    refine ih c rc rLast (fun t ht => hall t (List.mem_cons_of_mem c ht)) ?_ hrc
    rw [← List.getLastD_cons d c rest]
    exact hlast

theorem run_fun_attribution (env : Env) (full first : String) (rest : List String)
    (rLast : ExitCode × String)
    (hparse : parse_argv (parse_pipes (rustTrim full)) = first :: rest)
    (h1 : tokenize first ≠ []) (h2 : (env (tokenize first)).isSome = true)
    (hr : ∀ t ∈ rest, tokenize t ≠ [] ∧ (env (tokenize t)).isSome = true)
    (hl : env (tokenize (rest.getLastD first)) = some rLast) :
    (run_fun env full).1 =
      wait_fun_result ⟨rLast, rest.foldl (fun a c => a ++ " | " ++ c) first⟩ := by
  obtain ⟨r0, hr0⟩ := Option.isSome_iff_exists.mp h2
  unfold run_fun run_pipe_fun
  rw [hparse]
  have hn : pipeNew env first = (RRun.ok ⟨r0, first⟩, [tokenize first]) := by
    simp [pipeNew, h1, hr0]
  simp only [runStages, hn]
  rw [pipeGo_spec env rest _ hr]
  have hfold : rest.foldl (fun acc c => (env (tokenize c)).getD acc) r0 = rLast :=
    foldl_getD_last env rest first r0 rLast (fun t ht => (hr t ht).2) hl hr0
  simp [hfold]

/-- C1.  Pipeline exit-status attribution: when every stage of a
pipeline spawns, the run result is `wait_fun_result` of the final
stage's behaviour and the joined label alone — no earlier stage's exit
status is inspected — and in particular `run_fun` on `"true | false"`
fails with the command-failed error carrying the final stage's exit
code regardless of the first stage's status. -/
theorem claim_C1 :
    (∀ (env : Env) (full first : String) (rest : List String) (rLast : ExitCode × String),
        parse_argv (parse_pipes (rustTrim full)) = first :: rest →
        tokenize first ≠ [] → (env (tokenize first)).isSome = true →
        (∀ t ∈ rest, tokenize t ≠ [] ∧ (env (tokenize t)).isSome = true) →
        env (tokenize (rest.getLastD first)) = some rLast →
        (run_fun env full).1 =
          wait_fun_result ⟨rLast, rest.foldl (fun a c => a ++ " | " ++ c) first⟩) ∧
    (∀ (env : Env) (stA : ExitCode) (outT outF : String) (c : Int),
        env ["true"] = some (stA, outT) → env ["false"] = some (some c, outF) → c ≠ 0 →
        (run_fun env "true | false").1 =
          RRun.err (IoErr.other ("true  |  false exit with " ++ toString c))) := by
  constructor
  · exact fun env full first rest rLast hp h1 h2 hr hl =>
      run_fun_attribution env full first rest rLast hp h1 h2 hr hl
  · intro env stA outT outF c hT hF hc
    have h := run_fun_attribution env "true | false" "true " [" false"] (some c, outF)
        rfl (by decide)
        (by rw [show tokenize "true " = ["true"] from rfl, hT]; rfl)
        (by
          intro t ht
          simp only [List.mem_singleton] at ht
          subst ht
          refine ⟨by decide, ?_⟩
          rw [show tokenize " false" = ["false"] from rfl, hF]
          rfl)
        (by
          show env (tokenize " false") = some (some c, outF)
          rw [show tokenize " false" = ["false"] from rfl]
          exact hF)
    rw [h]
    have hlbl : [" false"].foldl (fun a c => a ++ " | " ++ c) "true " = "true  |  false" := rfl
    rw [hlbl]
    simp only [wait_fun_result, statusSuccess]
    rw [if_neg (by simp [hc])]
    rfl

/-- Witness for C1: under the concrete environment where `true` exits 0
and `false` exits 1, the pipeline fails with the final stage's code. -/
theorem claim_C1_witness :
    (run_fun envTF "true | false").1 =
      RRun.err (IoErr.other "true  |  false exit with 1") := by
  have h := claim_C1.2 envTF (some 0) "" "" 1 (by decide) (by decide) (by decide)
  exact h.trans (by decide)

/-- Witness for C8 at the whitespace-only text `"   "`. -/
theorem claim_C8_witness :
    (run_fun envTF "   ").1 = RRun.panicked ∧ (pipeNew envTF "   ").1 = RRun.panicked :=
  claim_C8 envTF "   " (by decide)

theorem run_cmd_go_ok (env : Env) :
    ∀ (l : List String), (∀ s ∈ l, (run_pipe_cmd env s).1 = RRun.ok ()) →
      (run_cmd_go env l).1 = RRun.ok () := by
  intro l
  induction l with
  | nil => intro _; rfl
  | cons c rest ih =>
    intro h
    have hc := h c (List.mem_cons_self c rest)
    rcases hx : run_pipe_cmd env c with ⟨res, tr⟩
    rw [hx] at hc
    simp only at hc
    subst hc
    simp only [run_cmd_go, hx]
    exact ih (fun s hs => h s (List.mem_cons_of_mem c hs))

theorem run_cmd_go_err (env : Env) :
    ∀ (pre : List String) (s : String) (post : List String) (e : IoErr),
      (∀ t ∈ pre, (run_pipe_cmd env t).1 = RRun.ok ()) →
      (run_pipe_cmd env s).1 = RRun.err e →
      run_cmd_go env (pre ++ s :: post) =
        (RRun.err e, (pre.map (fun t => (run_pipe_cmd env t).2)).flatten ++ (run_pipe_cmd env s).2) := by
  intro pre
  induction pre with
  | nil =>
    intro s post e _ hs
    rcases hx : run_pipe_cmd env s with ⟨res, tr⟩
    rw [hx] at hs
    simp only at hs
    subst hs
    simp [run_cmd_go, hx]
  | cons c pre ih =>
    intro s post e hpre hs
    have hc := hpre c (List.mem_cons_self c pre)
    rcases hx : run_pipe_cmd env c with ⟨res, tr⟩
    rw [hx] at hc
    simp only at hc
    subst hc
    simp only [List.cons_append, run_cmd_go, hx]
    simp only [List.append_eq]
    rw [ih s post e (fun t ht => hpre t (List.mem_cons_of_mem c ht)) hs]
    simp [hx, List.append_assoc]

/-- C2.  Sequence short-circuit: `run_cmd` splits its input on
quote-aware `';'` and runs the non-empty segments in order; if every
segment succeeds it returns unit, and if the segments split as
`pre ++ s :: post` with all of `pre` succeeding and `s` failing with
error `e`, then the whole run returns exactly `e` and the spawn trace
contains only the argument vectors of `pre` and `s` — nothing from any
later segment is executed. -/
theorem claim_C2 :
    (∀ (env : Env) (cmds : String),
        (∀ s ∈ parse_argv (parse_cmds cmds), (run_pipe_cmd env s).1 = RRun.ok ()) →
        (runCmd env cmds).1 = RRun.ok ()) ∧
    (∀ (env : Env) (cmds : String) (pre : List String) (s : String) (post : List String)
        (e : IoErr),
        parse_argv (parse_cmds cmds) = pre ++ s :: post →
        (∀ t ∈ pre, (run_pipe_cmd env t).1 = RRun.ok ()) →
        (run_pipe_cmd env s).1 = RRun.err e →
        runCmd env cmds =
          (RRun.err e,
           (pre.map (fun t => (run_pipe_cmd env t).2)).flatten ++ (run_pipe_cmd env s).2)) := by
  constructor
  · intro env cmds h
    exact run_cmd_go_ok env _ h
  · intro env cmds pre s post e hp hpre hs
    unfold runCmd
    rw [hp]
    exact run_cmd_go_err env pre s post e hpre hs

/-- Witness for C2: `"false ; echo should-not-run"` fails with the
first segment's error and only `["false"]` is ever spawned. -/
theorem claim_C2_witness :
    runCmd envFE "false ; echo should-not-run" =
      (RRun.err (IoErr.other "false exit with 1"), [["false"]]) := by
  have h := claim_C2.2 envFE "false ; echo should-not-run" [] "false " [" echo should-not-run"]
      (IoErr.other "false exit with 1") (by decide) (by simp) (by decide)
  exact h.trans (by decide)

/-- C7 (amended).  Command-failed diagnostics: when the final stage of
a pipeline exits with a code `c ≠ 0`, finalizing yields an error whose
message carries the full joined pipeline label and the exit code
exactly (a single-stage command exiting with code 7 carries code 7);
when no exit code is available the error carries only the fixed message
`"Unknown error"`, without the pipeline label. -/
theorem claim_C7 :
    (∀ (full : String) (c : Int) (out : String), c ≠ 0 →
        wait_fun_result ⟨(some c, out), full⟩ =
          RRun.err (IoErr.other (full ++ " exit with " ++ toString c))) ∧
    (∀ (full out : String),
        wait_fun_result ⟨(none, out), full⟩ = RRun.err (IoErr.other "Unknown error")) ∧
    (∀ (env : Env) (out : String), env ["cmd7"] = some (some 7, out) →
        (run_fun env "cmd7").1 = RRun.err (IoErr.other "cmd7 exit with 7")) := by
  refine ⟨?_, fun full out => rfl, ?_⟩
  · intro full c out hc
    simp only [wait_fun_result, statusSuccess]
    rw [if_neg (by simp [hc])]
    rfl
  · intro env out henv
    have h := run_fun_attribution env "cmd7" "cmd7" [] (some 7, out)
        rfl (by decide)
        (by rw [show tokenize "cmd7" = ["cmd7"] from rfl, henv]; rfl)
        (by simp)
        (by
          show env (tokenize "cmd7") = some (some 7, out)
          rw [show tokenize "cmd7" = ["cmd7"] from rfl]
          exact henv)
    rw [h]
    rfl

/-- Witness for C7: a single-stage command exiting with code 7. -/
theorem claim_C7_witness :
    (run_fun envC7 "cmd7").1 = RRun.err (IoErr.other "cmd7 exit with 7") :=
  claim_C7.2.2 envC7 "" (by decide)
